import Mathlib

/-!
Verification development for the mDNS discovery routine
(`discover_servers` in `src/web/ui/src-tauri/src/lib.rs`).

The Rust function starts an mDNS daemon, browses for `_orb._tcp.local.`,
drains resolution events for 3 seconds in 500 ms poll slices, normalizes
each resolved service into a `DiscoveredServer` record, deduplicates by
derived `url` (first seen wins), tears the daemon down best-effort, and
returns the accumulated list.

Shallow embedding conventions:
* time is measured in whole milliseconds as `Nat`;
* IP addresses are modelled already stringified, in the order the
  set iterator of the Rust side would deliver them;
* TXT properties are an association list of key and value strings;
* each loop iteration's wait outcome is one element of an input trace,
  paired with the milliseconds that the blocking wait consumed
  (clamped by the embedding to the requested timeout, since
  `recv_timeout(wait)` returns within `wait`).
-/

/-- Mirror of the Rust `ServiceInfo` data that `discover_servers` reads:
resolved addresses (stringified, in iteration order), advertised hostname,
port, TXT properties, and the fully qualified instance name. -/
structure ServiceInfo where
  addresses : List String
  hostname : String
  port : Nat
  properties : List (String × String)
  fullname : String
deriving DecidableEq

/-- Mirror of the Rust `DiscoveredServer` output record. -/
structure DiscoveredServer where
  name : String
  host : String
  port : Nat
  url : String
  version : String
deriving DecidableEq

/-- Mirror of `mdns_sd::ServiceEvent`. -/
inductive ServiceEvent where
  | searchStarted (ty : String)
  | serviceFound (ty fullname : String)
  | serviceResolved (info : ServiceInfo)
  | serviceRemoved (ty fullname : String)
  | searchStopped (ty : String)
deriving DecidableEq

/-- Mirror of `RecvTimeoutError`: the receive either timed out or the
channel was disconnected. -/
inductive RecvTimeoutError where
  | timeout
  | disconnected
deriving DecidableEq

/-- Outcome of one `spawn_blocking(move || rx.recv_timeout(wait)).await`:
`ok e` is `Ok(Ok(e))`, `recvErr e` is `Ok(Err(e))`, and `joinErr` is
`Err(_)` (the spawned task failed to join). -/
inductive WaitOutcome where
  | ok (e : ServiceEvent)
  | recvErr (e : RecvTimeoutError)
  | joinErr
deriving DecidableEq

/-- Embedding of Rust `s.trim_end_matches('.')`: drop every trailing
`'.'` character. -/
def trimTrailingDots (s : String) : String :=
  String.mk ((s.data.reverse.dropWhile (fun c => c == '.')).reverse)

/-- Embedding of Rust `str::split(sep)` on character lists: `n`
separators produce `n + 1` pieces, empty pieces included, so the result
is never empty. -/
def splitChar (sep : Char) : List Char → List (List Char)
  | [] => [[]]
  | c :: cs =>
    if c == sep then [] :: splitChar sep cs
    else
      match splitChar sep cs with
      | [] => [[c]]
      | g :: gs => (c :: g) :: gs

/-- Embedding of `info.get_fullname().split('.').next().unwrap_or("Orb Server")`. -/
def serverName (fullname : String) : String :=
  (((splitChar '.' fullname.data).head?).map String.mk).getD "Orb Server"

/-- Embedding of `info.get_properties().get(key)` followed by `val_str()`:
first value stored under `key` in the TXT properties. -/
def getProp (props : List (String × String)) (key : String) : Option String :=
  (props.find? (fun p => p.fst == key)).map (fun p => p.snd)

/-- Embedding of the host extraction: first resolved address if any,
else the advertised hostname with trailing dots trimmed. -/
def hostOf (info : ServiceInfo) : String :=
  match info.addresses.head? with
  | some a => a
  | none => trimTrailingDots info.hostname

/-- Embedding of the record construction performed for each
`ServiceResolved` event. -/
def buildServer (info : ServiceInfo) : DiscoveredServer :=
  let host := hostOf info
  let path := (getProp info.properties "path").getD "/"
  let vers := (getProp info.properties "version").getD "unknown"
  let url := "http://" ++ host ++ ":" ++ toString info.port ++ path
  { name := serverName info.fullname
    host := host
    port := info.port
    url := url
    version := vers }

/-- Embedding of one arm of the loop's `match`: a `ServiceResolved`
event appends its record unless some accumulated record already has the
same `url`; every other outcome leaves the list unchanged. -/
def processOutcome (servers : List DiscoveredServer) (o : WaitOutcome) :
    List DiscoveredServer :=
  match o with
  | WaitOutcome.ok (ServiceEvent.serviceResolved info) =>
    let s := buildServer info
    if servers.any (fun t => t.url == s.url) then servers else servers ++ [s]
  | _ => servers

/-- The list produced by feeding a sequence of wait outcomes through the
loop body, starting from the empty accumulator. -/
def processEvents (os : List WaitOutcome) : List DiscoveredServer :=
  os.foldl processOutcome []

/-- Whether a wait outcome is a successfully received `ServiceResolved`
event (the only arm of the Rust `match` that is not the catch-all). -/
def isResolved : WaitOutcome → Bool
  | WaitOutcome.ok (ServiceEvent.serviceResolved _) => true
  | _ => false

/-- State threaded through the polling loop: current instant (ms),
accumulated records, and a ghost count of completed wait iterations. -/
structure LoopState where
  now : Nat
  servers : List DiscoveredServer
  polls : Nat
deriving DecidableEq

/-- Total time budget: `Duration::from_secs(3)` in milliseconds. -/
def budgetMs : Nat := 3000

/-- Poll slice: `Duration::from_millis(500)`. -/
def pollSliceMs : Nat := 500

/-- Embedding of `deadline.saturating_duration_since(now)`. -/
def remainingTime (deadline now : Nat) : Nat := deadline - now

/-- Embedding of `remaining.min(Duration::from_millis(500))`: the timeout
handed to `recv_timeout`. -/
def waitBudget (deadline now : Nat) : Nat :=
  min (remainingTime deadline now) pollSliceMs

/-- Embedding of the polling loop. Each iteration first recomputes the
remaining time and stops when it is zero; otherwise it performs one
blocking wait whose elapsed time is the trace's `dt` clamped to the
requested timeout `waitBudget`, processes the outcome, and continues.
An exhausted trace stands for nothing but timeouts until the deadline,
which leave the accumulated list untouched. -/
def runLoop (deadline : Nat) : LoopState → List (Nat × WaitOutcome) → LoopState
  | st, [] => st
  | st, (dt, o) :: rest =>
    if remainingTime deadline st.now = 0 then st
    else
      runLoop deadline
        { now := st.now + min dt (waitBudget deadline st.now)
          servers := processOutcome st.servers o
          polls := st.polls + 1 } rest

/-- Environment of one call: results of the fallible external calls
(`ServiceDaemon::new`, `browse`, `stop_browse`, `shutdown`, each `some e`
when it fails with cause `e`), the starting instant, and the trace of
wait outcomes the subscription delivers. -/
structure Env where
  initErr : Option String
  browseErr : Option String
  stopBrowseErr : Option String
  shutdownErr : Option String
  startNow : Nat
  trace : List (Nat × WaitOutcome)
deriving DecidableEq

/-- Ghost log of the external calls the routine performs, in order. -/
inductive ExtCall where
  | initDaemon
  | browseStart
  | poll
  | stopBrowse
  | shutdown
deriving DecidableEq

/-- Embedding of the whole `discover_servers` function: returns the
`Result` value together with the ghost log of performed calls. The
teardown results are bound and discarded, mirroring the two
`let _ = ...;` lines. -/
def discover_servers (env : Env) :
    Except String (List DiscoveredServer) × List ExtCall :=
  match env.initErr with
  | some e => (Except.error ("mdns init: " ++ e), [ExtCall.initDaemon])
  | none =>
    match env.browseErr with
    | some e =>
      (Except.error ("mdns browse: " ++ e),
        [ExtCall.initDaemon, ExtCall.browseStart])
    | none =>
      let deadline := env.startNow + budgetMs
      let final :=
        runLoop deadline
          { now := env.startNow, servers := [], polls := 0 } env.trace
      let _ := env.stopBrowseErr
      let _ := env.shutdownErr
      (Except.ok final.servers,
        [ExtCall.initDaemon, ExtCall.browseStart]
          ++ List.replicate final.polls ExtCall.poll
          ++ [ExtCall.stopBrowse, ExtCall.shutdown])

/-- Modelled from the spec: the service infos carried by the resolved
events of a trace, in delivery order. -/
def resolvedInfos (os : List WaitOutcome) : List ServiceInfo :=
  os.filterMap (fun o =>
    match o with
    | WaitOutcome.ok (ServiceEvent.serviceResolved i) => some i
    | _ => none)

/-- Modelled from the spec: first-seen-wins deduplication by derived
`url`, given the set of urls already seen. -/
def specDedup (seen : List String) : List WaitOutcome → List DiscoveredServer
  | [] => []
  | o :: rest =>
    match o with
    | WaitOutcome.ok (ServiceEvent.serviceResolved i) =>
      let s := buildServer i
      if s.url ∈ seen then specDedup seen rest
      else s :: specDedup (seen ++ [s.url]) rest
    | _ => specDedup seen rest

/-- Modelled from the spec: the record built from the first resolved
event of the trace whose derived `url` equals `u`. -/
def specFirstHit (os : List WaitOutcome) (u : String) : Option DiscoveredServer :=
  ((resolvedInfos os).map buildServer).find? (fun t => t.url == u)

/-- Modelled from the spec: the first label of a fully qualified name,
read as the longest dot-free front segment. -/
def specFirstLabel (s : String) : String :=
  String.mk (s.data.takeWhile (fun c => c != '.'))

/-- Modelled from the spec: two wait outcomes carrying the same
observable event data — for resolved events, equal addresses, hostname,
port, metadata and fullname; for the other outcomes, the same kind. -/
def sameOutcome : WaitOutcome → WaitOutcome → Prop
  | WaitOutcome.ok (ServiceEvent.serviceResolved a),
    WaitOutcome.ok (ServiceEvent.serviceResolved b) =>
      a.addresses = b.addresses ∧ a.hostname = b.hostname ∧
        a.port = b.port ∧ a.properties = b.properties ∧
        a.fullname = b.fullname
  | WaitOutcome.ok (ServiceEvent.searchStarted _),
    WaitOutcome.ok (ServiceEvent.searchStarted _) => True
  | WaitOutcome.ok (ServiceEvent.serviceFound _ _),
    WaitOutcome.ok (ServiceEvent.serviceFound _ _) => True
  | WaitOutcome.ok (ServiceEvent.serviceRemoved _ _),
    WaitOutcome.ok (ServiceEvent.serviceRemoved _ _) => True
  | WaitOutcome.ok (ServiceEvent.searchStopped _),
    WaitOutcome.ok (ServiceEvent.searchStopped _) => True
  | WaitOutcome.recvErr a, WaitOutcome.recvErr b => a = b
  | WaitOutcome.joinErr, WaitOutcome.joinErr => True
  | _, _ => False

/-- Sample resolved service matching the spec's worked scenario. -/
def infoSample : ServiceInfo :=
  { addresses := ["192.168.1.50"]
    hostname := "orb.local."
    port := 9000
    properties := [("path", "/api"), ("version", "1.2.0")]
    fullname := "orb-living-room._orb._tcp.local." }

/-- Sample resolved service with no addresses and no metadata. -/
def infoBare : ServiceInfo :=
  { addresses := []
    hostname := "orb.local.."
    port := 80
    properties := []
    fullname := "orb._orb._tcp.local." }

/-- Duplicate of the sample service: same derived url, different
`version` metadata and instance name. -/
def infoDup : ServiceInfo :=
  { addresses := ["192.168.1.50"]
    hostname := "orb2.local."
    port := 9000
    properties := [("path", "/api"), ("version", "9.9.9")]
    fullname := "orb-duplicate._orb._tcp.local." }

/-- Environment whose daemon initialization fails. -/
def envInitFail : Env :=
  { initErr := some "no socket"
    browseErr := none
    stopBrowseErr := none
    shutdownErr := none
    startNow := 0
    trace := [] }

/-- Environment whose browse subscription fails to start. -/
def envBrowseFail : Env :=
  { initErr := none
    browseErr := some "bad service type"
    stopBrowseErr := none
    shutdownErr := none
    startNow := 0
    trace := [] }

/-- Healthy environment delivering one resolution, with failing
teardown calls. -/
def envOk : Env :=
  { initErr := none
    browseErr := none
    stopBrowseErr := some "stop failed"
    shutdownErr := some "shutdown failed"
    startNow := 0
    trace := [(100, WaitOutcome.ok (ServiceEvent.serviceResolved infoSample)),
      (50, WaitOutcome.recvErr RecvTimeoutError.timeout)] }

/-- Healthy environment that never delivers a resolution. -/
def envQuiet : Env :=
  { initErr := none
    browseErr := none
    stopBrowseErr := none
    shutdownErr := none
    startNow := 5
    trace := [(600, WaitOutcome.recvErr RecvTimeoutError.timeout),
      (600, WaitOutcome.ok (ServiceEvent.searchStarted "_orb._tcp.local.")),
      (600, WaitOutcome.joinErr)] }

theorem isResolved_iff (o : WaitOutcome) :
    isResolved o = true ↔
      ∃ i, o = WaitOutcome.ok (ServiceEvent.serviceResolved i) := by
  cases o with
  | ok e => cases e <;> simp [isResolved]
  | recvErr e => simp [isResolved]
  | joinErr => simp [isResolved]

theorem processOutcome_not_resolved (servers : List DiscoveredServer)
    (o : WaitOutcome) (h : isResolved o = false) :
    processOutcome servers o = servers := by
  cases o with
  | ok e => cases e <;> simp_all [isResolved, processOutcome]
  | recvErr e => rfl
  | joinErr => rfl

theorem specDedup_not_resolved (seen : List String) (o : WaitOutcome)
    (rest : List WaitOutcome) (h : isResolved o = false) :
    specDedup seen (o :: rest) = specDedup seen rest := by
  cases o with
  | ok e => cases e <;> simp_all [isResolved, specDedup]
  | recvErr e => rfl
  | joinErr => rfl

theorem resolvedInfos_not_resolved (o : WaitOutcome) (os : List WaitOutcome)
    (h : isResolved o = false) :
    resolvedInfos (o :: os) = resolvedInfos os := by
  cases o with
  | ok e => cases e <;> simp_all [isResolved, resolvedInfos]
  | recvErr e => simp [resolvedInfos]
  | joinErr => simp [resolvedInfos]

theorem resolvedInfos_resolved (i : ServiceInfo) (os : List WaitOutcome) :
    resolvedInfos (WaitOutcome.ok (ServiceEvent.serviceResolved i) :: os) =
      i :: resolvedInfos os := by
  simp [resolvedInfos]

theorem any_url_eq (acc : List DiscoveredServer) (u : String) :
    acc.any (fun t => t.url == u) = true ↔ u ∈ acc.map (fun s => s.url) := by
  simp only [List.any_eq_true, List.mem_map, beq_iff_eq]

theorem foldl_processOutcome_eq (os : List WaitOutcome) :
    ∀ acc : List DiscoveredServer,
      os.foldl processOutcome acc =
        acc ++ specDedup (acc.map (fun s => s.url)) os := by
  induction os with
  | nil => intro acc; simp [specDedup]
  | cons o rest ih =>
    intro acc
    by_cases hr : isResolved o = true
    · rcases (isResolved_iff o).1 hr with ⟨i, rfl⟩
      simp only [List.foldl_cons, processOutcome, specDedup]
      by_cases h : (buildServer i).url ∈ acc.map (fun s => s.url)
      · rw [if_pos ((any_url_eq acc (buildServer i).url).2 h), if_pos h]
        exact ih acc
      · rw [if_neg (by
            intro hc
            exact h ((any_url_eq acc (buildServer i).url).1 hc)),
          if_neg h]
        rw [ih (acc ++ [buildServer i])]
        simp [List.map_append]
    · have hfalse : isResolved o = false := by
        cases hv : isResolved o
        · rfl
        · exact absurd hv hr
      rw [List.foldl_cons, processOutcome_not_resolved acc o hfalse,
        specDedup_not_resolved _ o rest hfalse]
      exact ih acc

theorem processEvents_eq_specDedup (os : List WaitOutcome) :
    processEvents os = specDedup [] os := by
  have h := foldl_processOutcome_eq os []
  simpa [processEvents] using h

theorem specDedup_url_not_seen :
    ∀ (os : List WaitOutcome) (seen : List String) (u : String),
      u ∈ (specDedup seen os).map (fun s => s.url) → u ∉ seen := by
  intro os
  induction os with
  | nil => intro seen u h; simp [specDedup] at h
  | cons o rest ih =>
    intro seen u h
    by_cases hr : isResolved o = true
    · rcases (isResolved_iff o).1 hr with ⟨i, rfl⟩
      simp only [specDedup] at h
      by_cases hmem : (buildServer i).url ∈ seen
      · rw [if_pos hmem] at h
        exact ih seen u h
      · rw [if_neg hmem] at h
        simp only [List.map_cons, List.mem_cons] at h
        rcases h with h | h
        · subst h; exact hmem
        · intro hu
          exact ih (seen ++ [(buildServer i).url]) u h
            (List.mem_append_left _ hu)
    · have hfalse : isResolved o = false := by
        cases hv : isResolved o
        · rfl
        · exact absurd hv hr
      rw [specDedup_not_resolved _ o rest hfalse] at h
      exact ih seen u h

theorem specDedup_urls_nodup :
    ∀ (os : List WaitOutcome) (seen : List String),
      ((specDedup seen os).map (fun s => s.url)).Nodup := by
  intro os
  induction os with
  | nil => intro seen; simp [specDedup]
  | cons o rest ih =>
    intro seen
    by_cases hr : isResolved o = true
    · rcases (isResolved_iff o).1 hr with ⟨i, rfl⟩
      simp only [specDedup]
      by_cases hmem : (buildServer i).url ∈ seen
      · rw [if_pos hmem]; exact ih seen
      · rw [if_neg hmem]
        simp only [List.map_cons, List.nodup_cons]
        refine ⟨fun hc => ?_, ih (seen ++ [(buildServer i).url])⟩
        exact specDedup_url_not_seen rest (seen ++ [(buildServer i).url])
          (buildServer i).url hc
          (List.mem_append_right _ (List.mem_singleton.2 rfl))
    · have hfalse : isResolved o = false := by
        cases hv : isResolved o
        · rfl
        · exact absurd hv hr
      rw [specDedup_not_resolved _ o rest hfalse]
      exact ih seen

theorem specDedup_first :
    ∀ (os : List WaitOutcome) (seen : List String) (s : DiscoveredServer),
      s ∈ specDedup seen os → specFirstHit os s.url = some s := by
  intro os
  induction os with
  | nil => intro seen s h; simp [specDedup] at h
  | cons o rest ih =>
    intro seen s h
    by_cases hr : isResolved o = true
    · rcases (isResolved_iff o).1 hr with ⟨i, rfl⟩
      simp only [specDedup] at h
      by_cases hmem : (buildServer i).url ∈ seen
      · rw [if_pos hmem] at h
        have hne : (buildServer i).url ≠ s.url := by
          intro hc
          exact specDedup_url_not_seen rest seen s.url
            (List.mem_map.2 ⟨s, h, rfl⟩) (hc ▸ hmem)
        have : specFirstHit rest s.url = some s := ih seen s h
        simp only [specFirstHit, resolvedInfos_resolved, List.map_cons]
        rw [List.find?_cons_of_neg]
        · exact this
        · simp [hne]
      · rw [if_neg hmem] at h
        rcases List.mem_cons.1 h with h | h
        · subst h
          simp only [specFirstHit, resolvedInfos_resolved, List.map_cons]
          rw [List.find?_cons_of_pos]
          simp
        · have hne : (buildServer i).url ≠ s.url := by
            intro hc
            exact specDedup_url_not_seen rest (seen ++ [(buildServer i).url])
              s.url (List.mem_map.2 ⟨s, h, rfl⟩)
              (hc ▸ List.mem_append_right _ (List.mem_singleton.2 rfl))
          have : specFirstHit rest s.url = some s :=
            ih (seen ++ [(buildServer i).url]) s h
          simp only [specFirstHit, resolvedInfos_resolved, List.map_cons]
          rw [List.find?_cons_of_neg]
          · exact this
          · simp [hne]
    · have hfalse : isResolved o = false := by
        cases hv : isResolved o
        · rfl
        · exact absurd hv hr
      rw [specDedup_not_resolved _ o rest hfalse] at h
      have : specFirstHit rest s.url = some s := ih seen s h
      simpa [specFirstHit, resolvedInfos_not_resolved o rest hfalse] using this

theorem specDedup_exists :
    ∀ (os : List WaitOutcome) (seen : List String) (u : String), u ∉ seen →
      ((∃ i, i ∈ resolvedInfos os ∧ (buildServer i).url = u) ↔
        (∃ s, s ∈ specDedup seen os ∧ s.url = u)) := by
  intro os
  induction os with
  | nil =>
    intro seen u _
    simp [specDedup, resolvedInfos]
  | cons o rest ih =>
    intro seen u hu
    by_cases hr : isResolved o = true
    · rcases (isResolved_iff o).1 hr with ⟨i, rfl⟩
      simp only [specDedup, resolvedInfos_resolved]
      by_cases hmem : (buildServer i).url ∈ seen
      · rw [if_pos hmem]
        have hne : (buildServer i).url ≠ u := by
          intro hc; exact hu (hc ▸ hmem)
        constructor
        · rintro ⟨j, hj, hju⟩
          rcases List.mem_cons.1 hj with rfl | hj
          · exact absurd hju hne
          · exact (ih seen u hu).1 ⟨j, hj, hju⟩
        · rintro ⟨s, hs, hsu⟩
          rcases (ih seen u hu).2 ⟨s, hs, hsu⟩ with ⟨j, hj, hju⟩
          exact ⟨j, List.mem_cons_of_mem _ hj, hju⟩
      · rw [if_neg hmem]
        by_cases hequ : (buildServer i).url = u
        · constructor
          · intro _
            exact ⟨buildServer i, List.mem_cons_self _ _, hequ⟩
          · intro _
            exact ⟨i, List.mem_cons_self _ _, hequ⟩
        · have hu2 : u ∉ seen ++ [(buildServer i).url] := by
            intro hc
            rcases List.mem_append.1 hc with hc | hc
            · exact hu hc
            · exact hequ (List.mem_singleton.1 hc).symm
          constructor
          · rintro ⟨j, hj, hju⟩
            rcases List.mem_cons.1 hj with rfl | hj
            · exact absurd hju hequ
            · rcases (ih (seen ++ [(buildServer i).url]) u hu2).1
                ⟨j, hj, hju⟩ with ⟨s, hs, hsu⟩
              exact ⟨s, List.mem_cons_of_mem _ hs, hsu⟩
          · rintro ⟨s, hs, hsu⟩
            rcases List.mem_cons.1 hs with rfl | hs
            · exact absurd hsu hequ
            · rcases (ih (seen ++ [(buildServer i).url]) u hu2).2
                ⟨s, hs, hsu⟩ with ⟨j, hj, hju⟩
              exact ⟨j, List.mem_cons_of_mem _ hj, hju⟩
    · have hfalse : isResolved o = false := by
        cases hv : isResolved o
        · rfl
        · exact absurd hv hr
      rw [specDedup_not_resolved _ o rest hfalse,
        resolvedInfos_not_resolved o rest hfalse]
      exact ih seen u hu

/-- C1: feeding any sequence of wait outcomes through the polling loop
body yields exactly one record per distinct derived url — the urls of
the result are pairwise distinct, a url appears in the result exactly
when some resolved event derives it — and each kept record is the one
built from the first resolved event deriving its url; later events with
the same url are dropped. -/
theorem c1_dedup_first_seen_wins (os : List WaitOutcome) :
    ((processEvents os).map (fun s => s.url)).Nodup ∧
    (∀ s, s ∈ processEvents os → specFirstHit os s.url = some s) ∧
    (∀ u, (∃ i, i ∈ resolvedInfos os ∧ (buildServer i).url = u) ↔
      (∃ s, s ∈ processEvents os ∧ s.url = u)) := by
  rw [processEvents_eq_specDedup]
  exact ⟨specDedup_urls_nodup os [],
    fun s hs => specDedup_first os [] s hs,
    fun u => specDedup_exists os [] u (List.not_mem_nil u)⟩

/-- Witness for C1 at a concrete trace: two resolved events share the
derived url; the kept record is the first one and the url is present
exactly once. -/
theorem c1_dedup_first_seen_wins_witness :
    specFirstHit
        [WaitOutcome.ok (ServiceEvent.serviceResolved infoSample),
          WaitOutcome.ok (ServiceEvent.serviceResolved infoDup)]
        (buildServer infoSample).url = some (buildServer infoSample) ∧
      (∃ s, s ∈ processEvents
          [WaitOutcome.ok (ServiceEvent.serviceResolved infoSample),
            WaitOutcome.ok (ServiceEvent.serviceResolved infoDup)] ∧
        s.url = (buildServer infoDup).url) :=
  ⟨(c1_dedup_first_seen_wins
      [WaitOutcome.ok (ServiceEvent.serviceResolved infoSample),
        WaitOutcome.ok (ServiceEvent.serviceResolved infoDup)]).2.1
      (buildServer infoSample) (by decide),
    ((c1_dedup_first_seen_wins
      [WaitOutcome.ok (ServiceEvent.serviceResolved infoSample),
        WaitOutcome.ok (ServiceEvent.serviceResolved infoDup)]).2.2
      (buildServer infoDup).url).1 ⟨infoDup, by decide, rfl⟩⟩

theorem spec_scenario_record : buildServer infoSample =
    { name := "orb-living-room"
      host := "192.168.1.50"
      port := 9000
      url := "http://192.168.1.50:9000/api"
      version := "1.2.0" } := by decide

theorem spec_scenario_bare : buildServer infoBare =
    { name := "orb"
      host := "orb.local"
      port := 80
      url := "http://orb.local:80/"
      version := "unknown" } := by decide

/-- C2: `path` and `version` metadata are defaulted independently — a
missing `path` key yields a url that is exactly `host:port` followed by
a lone `/` after the scheme, a missing `version` key yields the literal
version string `unknown`, and a resolved event always yields a record
regardless of metadata. -/
theorem c2_metadata_defaults (info : ServiceInfo) :
    (getProp info.properties "path" = none →
      (buildServer info).url =
        "http://" ++ (buildServer info).host ++ ":" ++
          toString info.port ++ "/") ∧
    (getProp info.properties "version" = none →
      (buildServer info).version = "unknown") ∧
    processEvents [WaitOutcome.ok (ServiceEvent.serviceResolved info)] =
      [buildServer info] := by
  refine ⟨fun hp => ?_, fun hv => ?_, ?_⟩
  · simp [buildServer, hp]
  · simp [buildServer, hv]
  · simp [processEvents, processOutcome]

/-- Witness for C2: the bare sample service has neither metadata key,
and its record still exists with the defaulted url and version. -/
theorem c2_metadata_defaults_witness :
    (buildServer infoBare).url =
        "http://" ++ (buildServer infoBare).host ++ ":" ++
          toString infoBare.port ++ "/" ∧
      (buildServer infoBare).version = "unknown" :=
  ⟨(c2_metadata_defaults infoBare).1 (by decide),
    (c2_metadata_defaults infoBare).2.1 (by decide)⟩

theorem mem_takeWhile_eval {α : Type} (p : α → Bool) :
    ∀ (l : List α) (a : α), a ∈ l.takeWhile p → p a = true := by
  intro l
  induction l with
  | nil => intro a h; simp [List.takeWhile] at h
  | cons b bs ih =>
    intro a h
    by_cases hb : p b = true
    · rw [List.takeWhile_cons_of_pos hb] at h
      rcases List.mem_cons.1 h with rfl | h
      · exact hb
      · exact ih a h
    · rw [List.takeWhile_cons_of_neg hb] at h
      simp at h

theorem head_dropWhile_eval {α : Type} (p : α → Bool) :
    ∀ (l : List α) (a : α), (l.dropWhile p).head? = some a → p a = false := by
  intro l
  induction l with
  | nil => intro a h; simp [List.dropWhile] at h
  | cons b bs ih =>
    intro a h
    by_cases hb : p b = true
    · rw [List.dropWhile_cons_of_pos hb] at h
      exact ih a h
    · rw [List.dropWhile_cons_of_neg hb] at h
      have hba : b = a := by simpa using h
      subst hba
      cases hv : p b
      · rfl
      · exact absurd hv hb

theorem eq_replicate_of_forall {α : Type} (a : α) :
    ∀ l : List α, (∀ b ∈ l, b = a) → l = List.replicate l.length a := by
  intro l
  induction l with
  | nil => intro _; simp
  | cons b bs ih =>
    intro h
    have hb : b = a := h b (List.mem_cons_self _ _)
    have hrest := ih (fun c hc => h c (List.mem_cons_of_mem _ hc))
    simp [List.replicate_succ, hb]
    exact hrest

theorem trimTrailingDots_spec (s : String) :
    (∃ k, s.data = (trimTrailingDots s).data ++ List.replicate k '.') ∧
      (trimTrailingDots s).data.getLast? ≠ some '.' := by
  have hdata : (trimTrailingDots s).data =
      (s.data.reverse.dropWhile (fun c => c == '.')).reverse := rfl
  constructor
  · refine ⟨(s.data.reverse.takeWhile (fun c => c == '.')).reverse.length, ?_⟩
    have base : s.data =
        (s.data.reverse.dropWhile (fun c => c == '.')).reverse ++
          (s.data.reverse.takeWhile (fun c => c == '.')).reverse := by
      calc s.data = s.data.reverse.reverse := (List.reverse_reverse _).symm
        _ = ((s.data.reverse.takeWhile (fun c => c == '.')) ++
              (s.data.reverse.dropWhile (fun c => c == '.'))).reverse := by
            rw [List.takeWhile_append_dropWhile]
        _ = (s.data.reverse.dropWhile (fun c => c == '.')).reverse ++
              (s.data.reverse.takeWhile (fun c => c == '.')).reverse :=
            List.reverse_append _ _
    have hrep : (s.data.reverse.takeWhile (fun c => c == '.')).reverse =
        List.replicate
          (s.data.reverse.takeWhile (fun c => c == '.')).reverse.length '.' := by
      apply eq_replicate_of_forall
      intro b hb
      have hb2 : b ∈ s.data.reverse.takeWhile (fun c => c == '.') :=
        List.mem_reverse.1 hb
      have := mem_takeWhile_eval (fun c => c == '.') s.data.reverse b hb2
      exact beq_iff_eq.1 this
    rw [hdata, ← hrep]
    exact base
  · rw [hdata, List.getLast?_reverse]
    intro hc
    have := head_dropWhile_eval (fun c => c == '.') s.data.reverse '.' hc
    simp at this

/-- C3: a resolved event with no addresses still yields a record whose
host is the advertised hostname with every trailing dot removed (the
hostname decomposes as the host followed by some run of dots, and the
host itself does not end in a dot); with at least one address present,
the host is the first resolved address. -/
theorem c3_hostname_fallback (info : ServiceInfo) :
    (info.addresses = [] →
      (∃ k, info.hostname.data =
          (buildServer info).host.data ++ List.replicate k '.') ∧
        (buildServer info).host.data.getLast? ≠ some '.') ∧
    (∀ a rest, info.addresses = a :: rest → (buildServer info).host = a) ∧
    processEvents [WaitOutcome.ok (ServiceEvent.serviceResolved info)] =
      [buildServer info] := by
  refine ⟨fun h0 => ?_, fun a rest ha => ?_, ?_⟩
  · have hh : (buildServer info).host = trimTrailingDots info.hostname := by
      simp [buildServer, hostOf, h0]
    rw [hh]
    exact trimTrailingDots_spec info.hostname
  · simp [buildServer, hostOf, ha]
  · simp [processEvents, processOutcome]

/-- Witness for C3: the bare sample service advertises no address and a
hostname with two trailing dots; the concrete record is produced with
the trimmed hostname, and the sample with an address uses the address. -/
theorem c3_hostname_fallback_witness :
    ((∃ k, infoBare.hostname.data =
        (buildServer infoBare).host.data ++ List.replicate k '.') ∧
      (buildServer infoBare).host.data.getLast? ≠ some '.') ∧
      (buildServer infoSample).host = "192.168.1.50" :=
  ⟨(c3_hostname_fallback infoBare).1 rfl,
    (c3_hostname_fallback infoSample).2.1 "192.168.1.50" [] rfl⟩

theorem splitChar_head (sep : Char) :
    ∀ l : List Char,
      (splitChar sep l).head? = some (l.takeWhile (fun c => c != sep)) := by
  intro l
  induction l with
  | nil => rfl
  | cons c cs ih =>
    by_cases hc : (c == sep) = true
    · have hb : (c != sep) = false := by simp [bne, hc]
      simp [splitChar, hc, List.takeWhile_cons, hb]
    · have hceq : (c == sep) = false := by
        cases hv : c == sep
        · rfl
        · exact absurd hv hc
      have hb : (c != sep) = true := by simp [bne, hceq]
      cases hs : splitChar sep cs with
      | nil => rw [hs] at ih; exact absurd ih (by simp)
      | cons g gs =>
        rw [hs] at ih
        have hg : g = cs.takeWhile (fun x => x != sep) := by simpa using ih
        simp [splitChar, hceq, hs, List.takeWhile_cons, hb, hg]

/-- C4 counterexample: for an empty fullname the code does not fall back
to the constant `"Orb Server"` — the record's name is the empty string,
the first (empty) piece of the split, so the claimed fallback case never
fires. -/
theorem c4_fallback_counterexample :
    (buildServer
        { addresses := ["10.0.0.2"]
          hostname := "h.local."
          port := 80
          properties := []
          fullname := "" }).name = "" ∧
      (buildServer
        { addresses := ["10.0.0.2"]
          hostname := "h.local."
          port := 80
          properties := []
          fullname := "" }).name ≠ "Orb Server" := by
  decide

/-- C4 (amended): the record's name is always the prefix of the fullname
up to the first dot — for an empty fullname this is the empty string —
and the fallback constant is unreachable because splitting always yields
at least one (possibly empty) piece. -/
theorem c4_name_first_label (info : ServiceInfo) :
    (buildServer info).name = specFirstLabel info.fullname := by
  have h := splitChar_head '.' info.fullname.data
  simp [buildServer, serverName, specFirstLabel, h]

/-- C5: the call fails only at daemon initialization or browse start,
each time before any polling and with no teardown calls, and the error
carries the underlying cause; when both succeed the call returns a
success value. -/
theorem c5_fatal_only_init_or_browse (env : Env) :
    (∀ e, env.initErr = some e →
      discover_servers env =
        (Except.error ("mdns init: " ++ e), [ExtCall.initDaemon]) ∧
      ExtCall.poll ∉ (discover_servers env).snd ∧
      ExtCall.stopBrowse ∉ (discover_servers env).snd ∧
      ExtCall.shutdown ∉ (discover_servers env).snd) ∧
    (∀ e, env.initErr = none → env.browseErr = some e →
      discover_servers env =
        (Except.error ("mdns browse: " ++ e),
          [ExtCall.initDaemon, ExtCall.browseStart]) ∧
      ExtCall.poll ∉ (discover_servers env).snd ∧
      ExtCall.stopBrowse ∉ (discover_servers env).snd ∧
      ExtCall.shutdown ∉ (discover_servers env).snd) ∧
    (env.initErr = none → env.browseErr = none →
      ∃ l, (discover_servers env).fst = Except.ok l) := by
  refine ⟨fun e he => ?_, fun e hi hb => ?_, fun hi hb => ?_⟩
  · refine ⟨by simp [discover_servers, he], ?_, ?_, ?_⟩ <;>
      simp [discover_servers, he]
  · refine ⟨by simp [discover_servers, hi, hb], ?_, ?_, ?_⟩ <;>
      simp [discover_servers, hi, hb]
  · exact ⟨(runLoop (env.startNow + budgetMs)
      { now := env.startNow, servers := [], polls := 0 } env.trace).servers,
      by simp [discover_servers, hi, hb]⟩

/-- Witness for C5 at the three concrete environments: failed
initialization, failed browse start, and a healthy run. -/
theorem c5_fatal_only_init_or_browse_witness :
    discover_servers envInitFail =
        (Except.error ("mdns init: " ++ "no socket"), [ExtCall.initDaemon]) ∧
      discover_servers envBrowseFail =
        (Except.error ("mdns browse: " ++ "bad service type"),
          [ExtCall.initDaemon, ExtCall.browseStart]) ∧
      (∃ l, (discover_servers envOk).fst = Except.ok l) :=
  ⟨((c5_fatal_only_init_or_browse envInitFail).1 "no socket" rfl).1,
    ((c5_fatal_only_init_or_browse envBrowseFail).2.1
      "bad service type" rfl rfl).1,
    (c5_fatal_only_init_or_browse envOk).2.2 rfl rfl⟩

/-- C6: any wait outcome other than a resolved event leaves the
accumulated list unchanged, and the loop moves on to the next iteration
with only the clock and the poll counter advanced. -/
theorem c6_non_resolved_skipped (deadline : Nat) (st : LoopState) (dt : Nat)
    (o : WaitOutcome) (rest : List (Nat × WaitOutcome)) :
    (isResolved o = false → processOutcome st.servers o = st.servers) ∧
    (isResolved o = false → remainingTime deadline st.now ≠ 0 →
      runLoop deadline st ((dt, o) :: rest) =
        runLoop deadline
          { now := st.now + min dt (waitBudget deadline st.now)
            servers := st.servers
            polls := st.polls + 1 } rest) := by
  refine ⟨fun h => processOutcome_not_resolved _ o h, fun h hrem => ?_⟩
  simp [runLoop, hrem, processOutcome_not_resolved _ o h]

/-- Witness for C6: a timeout outcome at a concrete state leaves the
empty accumulator unchanged and the loop continues. -/
theorem c6_non_resolved_skipped_witness :
    processOutcome
        ({ now := 0, servers := [], polls := 0 } : LoopState).servers
        (WaitOutcome.recvErr RecvTimeoutError.timeout) =
      ({ now := 0, servers := [], polls := 0 } : LoopState).servers ∧
    runLoop 3000 { now := 0, servers := [], polls := 0 }
        [(100, WaitOutcome.recvErr RecvTimeoutError.timeout)] =
      runLoop 3000
        { now := 0 + min 100 (waitBudget 3000 0)
          servers := ({ now := 0, servers := [], polls := 0 } : LoopState).servers
          polls := 0 + 1 } [] :=
  ⟨(c6_non_resolved_skipped 3000 { now := 0, servers := [], polls := 0 } 100
      (WaitOutcome.recvErr RecvTimeoutError.timeout) []).1 (by decide),
    (c6_non_resolved_skipped 3000 { now := 0, servers := [], polls := 0 } 100
      (WaitOutcome.recvErr RecvTimeoutError.timeout) []).2 (by decide)
      (by decide)⟩

theorem runLoop_servers_const (deadline : Nat) :
    ∀ (trace : List (Nat × WaitOutcome)) (st : LoopState),
      (∀ p ∈ trace, isResolved p.snd = false) →
      (runLoop deadline st trace).servers = st.servers := by
  intro trace
  induction trace with
  | nil => intro st _; rfl
  | cons p rest ih =>
    intro st h
    obtain ⟨dt, o⟩ := p
    by_cases hr : remainingTime deadline st.now = 0
    · simp [runLoop, hr]
    · have ho : isResolved o = false := h (dt, o) (List.mem_cons_self _ _)
      have hstep : runLoop deadline st ((dt, o) :: rest) =
          runLoop deadline
            { now := st.now + min dt (waitBudget deadline st.now)
              servers := processOutcome st.servers o
              polls := st.polls + 1 } rest := by
        simp [runLoop, hr]
      rw [hstep, processOutcome_not_resolved _ o ho]
      exact ih _ (fun q hq => h q (List.mem_cons_of_mem _ hq))

/-- C7: on a run where initialization and browse start succeed, the call
requests both teardown steps, its result does not depend on the teardown
outcomes, and it returns the accumulated list as success — the empty
list when no resolution was delivered. -/
theorem c7_teardown_and_success (env : Env)
    (hi : env.initErr = none) (hb : env.browseErr = none) :
    ExtCall.stopBrowse ∈ (discover_servers env).snd ∧
    ExtCall.shutdown ∈ (discover_servers env).snd ∧
    (∀ e1 e2,
      discover_servers { env with stopBrowseErr := e1, shutdownErr := e2 } =
        discover_servers env) ∧
    (discover_servers env).fst =
      Except.ok (runLoop (env.startNow + budgetMs)
        { now := env.startNow, servers := [], polls := 0 } env.trace).servers ∧
    ((∀ p ∈ env.trace, isResolved p.snd = false) →
      (discover_servers env).fst = Except.ok []) := by
  obtain ⟨ie, be, se, sh, sn, tr⟩ := env
  have hi2 : ie = none := hi
  have hb2 : be = none := hb
  subst hi2
  subst hb2
  refine ⟨?_, ?_, fun e1 e2 => ?_, ?_, fun hq => ?_⟩
  · simp [discover_servers]
  · simp [discover_servers]
  · rfl
  · rfl
  · have hserv := runLoop_servers_const (sn + budgetMs) tr
      { now := sn, servers := [], polls := 0 } hq
    simp [discover_servers, hserv]

/-- Witness for C7: the healthy environment with failing teardown still
requests both teardown calls, and the quiet environment returns the
empty list. -/
theorem c7_teardown_and_success_witness :
    ExtCall.stopBrowse ∈ (discover_servers envOk).snd ∧
      (discover_servers envQuiet).fst = Except.ok [] :=
  ⟨(c7_teardown_and_success envOk rfl rfl).1,
    (c7_teardown_and_success envQuiet rfl rfl).2.2.2.2 (by decide)⟩

theorem runLoop_exit (deadline : Nat) (st : LoopState)
    (trace : List (Nat × WaitOutcome))
    (h : remainingTime deadline st.now = 0) :
    runLoop deadline st trace = st := by
  cases trace with
  | nil => rfl
  | cons p rest =>
    obtain ⟨dt, o⟩ := p
    simp [runLoop, h]

theorem one_le_waitBudget (deadline now : Nat)
    (h : remainingTime deadline now ≠ 0) : 1 ≤ waitBudget deadline now :=
  le_min (Nat.one_le_iff_ne_zero.2 h) (by norm_num [pollSliceMs])

theorem runLoop_take_of_le (deadline : Nat) :
    ∀ (trace : List (Nat × WaitOutcome)) (st : LoopState) (n : Nat),
      remainingTime deadline st.now ≤ n →
      (∀ p ∈ trace, 1 ≤ p.fst) →
      runLoop deadline st trace = runLoop deadline st (trace.take n) := by
  intro trace
  induction trace with
  | nil => intro st n _ _; simp
  | cons p rest ih =>
    intro st n hn h
    obtain ⟨dt, o⟩ := p
    by_cases hr : remainingTime deadline st.now = 0
    · rw [runLoop_exit deadline st _ hr, runLoop_exit deadline st _ hr]
    · cases n with
      | zero =>
        exact absurd (Nat.le_zero.1 hn) hr
      | succ m =>
        have hdt : 1 ≤ dt := h (dt, o) (List.mem_cons_self _ _)
        have hk : 1 ≤ min dt (waitBudget deadline st.now) :=
          le_min hdt (one_le_waitBudget deadline st.now hr)
        have hstep : ∀ tr, runLoop deadline st ((dt, o) :: tr) =
            runLoop deadline
              { now := st.now + min dt (waitBudget deadline st.now)
                servers := processOutcome st.servers o
                polls := st.polls + 1 } tr := by
          intro tr
          simp [runLoop, hr]
        rw [List.take_succ_cons, hstep rest, hstep (rest.take m)]
        apply ih _ m
        · generalize hkk : min dt (waitBudget deadline st.now) = k at hk
          simp only [remainingTime] at hn hr ⊢
          omega
        · exact fun q hq => h q (List.mem_cons_of_mem _ hq)

/-- C8: the polling loop terminates — an iteration whose recomputed
remaining time is zero exits at once, the blocking wait's timeout is
exactly the minimum of the remaining time and the 500 ms poll slice,
the loop consumes at most `remaining` trace entries when every wait
takes at least one millisecond, and under the same condition the
remaining time strictly decreases across an iteration. -/
theorem c8_loop_terminates (deadline : Nat) (st : LoopState)
    (trace : List (Nat × WaitOutcome)) :
    (remainingTime deadline st.now = 0 → runLoop deadline st trace = st) ∧
    (waitBudget deadline st.now =
      min (remainingTime deadline st.now) pollSliceMs) ∧
    ((∀ p ∈ trace, 1 ≤ p.fst) →
      runLoop deadline st trace =
        runLoop deadline st (trace.take (remainingTime deadline st.now))) ∧
    (∀ dt, 1 ≤ dt → remainingTime deadline st.now ≠ 0 →
      remainingTime deadline
          (st.now + min dt (waitBudget deadline st.now)) <
        remainingTime deadline st.now) := by
  refine ⟨fun h => runLoop_exit deadline st trace h, rfl,
    fun h => runLoop_take_of_le deadline trace st _ (le_refl _) h,
    fun dt hdt hne => ?_⟩
  have hk : 1 ≤ min dt (waitBudget deadline st.now) :=
    le_min hdt (one_le_waitBudget deadline st.now hne)
  generalize hkk : min dt (waitBudget deadline st.now) = k at hk
  simp only [remainingTime] at hne ⊢
  omega

/-- Witness for C8 at concrete values: a past deadline exits at once, a
trace of positive-time waits is cut at the remaining budget, and one
iteration strictly shrinks the remaining time. -/
theorem c8_loop_terminates_witness :
    runLoop 3000 { now := 3000, servers := [], polls := 0 }
        [(1, WaitOutcome.joinErr)] =
      { now := 3000, servers := [], polls := 0 } ∧
    runLoop 3001 { now := 3000, servers := [], polls := 0 }
        [(1, WaitOutcome.joinErr), (1, WaitOutcome.joinErr)] =
      runLoop 3001 { now := 3000, servers := [], polls := 0 }
        ([(1, WaitOutcome.joinErr), (1, WaitOutcome.joinErr)].take
          (remainingTime 3001 3000)) ∧
    remainingTime 3000 (0 + min 7 (waitBudget 3000 0)) <
      remainingTime 3000 0 :=
  ⟨(c8_loop_terminates 3000 { now := 3000, servers := [], polls := 0 }
      [(1, WaitOutcome.joinErr)]).1 (by decide),
    (c8_loop_terminates 3001 { now := 3000, servers := [], polls := 0 }
      [(1, WaitOutcome.joinErr), (1, WaitOutcome.joinErr)]).2.2.1 (by decide),
    (c8_loop_terminates 3000 { now := 0, servers := [], polls := 0 }
      []).2.2.2 7 (by decide) (by decide)⟩

theorem sameOutcome_process (servers : List DiscoveredServer) :
    ∀ o1 o2 : WaitOutcome, sameOutcome o1 o2 →
      processOutcome servers o1 = processOutcome servers o2 := by
  intro o1 o2 h
  cases o1 with
  | ok e1 =>
    cases o2 with
    | ok e2 =>
      cases e1 with
      | serviceResolved a =>
        cases e2 with
        | serviceResolved b =>
          obtain ⟨h1, h2, h3, h4, h5⟩ := h
          have hab : a = b := by
            cases a
            cases b
            simp_all
          rw [hab]
        | searchStarted t => simp [sameOutcome] at h
        | serviceFound t f => simp [sameOutcome] at h
        | serviceRemoved t f => simp [sameOutcome] at h
        | searchStopped t => simp [sameOutcome] at h
      | searchStarted t =>
        cases e2 <;> simp_all [sameOutcome, processOutcome]
      | serviceFound t f =>
        cases e2 <;> simp_all [sameOutcome, processOutcome]
      | serviceRemoved t f =>
        cases e2 <;> simp_all [sameOutcome, processOutcome]
      | searchStopped t =>
        cases e2 <;> simp_all [sameOutcome, processOutcome]
    | recvErr e2 => cases e1 <;> simp_all [sameOutcome, processOutcome]
    | joinErr => cases e1 <;> simp_all [sameOutcome, processOutcome]
  | recvErr e1 =>
    cases o2 with
    | ok e2 => cases e2 <;> simp_all [sameOutcome, processOutcome]
    | recvErr e2 => simp_all [sameOutcome, processOutcome]
    | joinErr => simp_all [sameOutcome, processOutcome]
  | joinErr =>
    cases o2 with
    | ok e2 => cases e2 <;> simp_all [sameOutcome, processOutcome]
    | recvErr e2 => simp_all [sameOutcome, processOutcome]
    | joinErr => simp_all [sameOutcome, processOutcome]

/-- C9: the loop's result is a deterministic function of the delivered
event data — two traces that agree pointwise on wait durations and on
each event's observable data (addresses, hostname, port, metadata,
fullname for resolved events; the outcome kind otherwise) produce equal
final states, record for record and in order. -/
theorem c9_deterministic (deadline : Nat) (st : LoopState) :
    ∀ t1 t2 : List (Nat × WaitOutcome),
      List.Forall₂ (fun p q => p.fst = q.fst ∧ sameOutcome p.snd q.snd) t1 t2 →
      runLoop deadline st t1 = runLoop deadline st t2 := by
  intro t1
  induction t1 generalizing st with
  | nil =>
    intro t2 h
    cases h
    rfl
  | cons p rest ih =>
    intro t2 h
    cases h with
    | cons hpq hrest =>
      obtain ⟨dt1, o1⟩ := p
      rename_i q qs
      obtain ⟨dt2, o2⟩ := q
      obtain ⟨hdt, ho⟩ := hpq
      simp only at hdt
      subst hdt
      by_cases hr : remainingTime deadline st.now = 0
      · rw [runLoop_exit deadline st _ hr, runLoop_exit deadline st _ hr]
      · have hstep : ∀ (o : WaitOutcome) tr,
            runLoop deadline st ((dt1, o) :: tr) =
              runLoop deadline
                { now := st.now + min dt1 (waitBudget deadline st.now)
                  servers := processOutcome st.servers o
                  polls := st.polls + 1 } tr := by
          intro o tr
          simp [runLoop, hr]
        rw [hstep o1 rest, hstep o2 qs,
          sameOutcome_process st.servers o1 o2 ho]
        exact ih _ qs hrest

/-- Witness for C9: two concrete traces differing only in the payload of
a non-resolved event yield the same final state. -/
theorem c9_deterministic_witness :
    runLoop 3000 { now := 0, servers := [], polls := 0 }
        [(100, WaitOutcome.ok (ServiceEvent.searchStarted "_orb._tcp.local."))] =
      runLoop 3000 { now := 0, servers := [], polls := 0 }
        [(100, WaitOutcome.ok (ServiceEvent.searchStarted "other"))] :=
  c9_deterministic 3000 { now := 0, servers := [], polls := 0 } _ _
    (List.Forall₂.cons ⟨rfl, trivial⟩ List.Forall₂.nil)

/-- C10: a failure of the offloaded wait itself (the spawned blocking
task failing to join) falls into the catch-all branch and is treated
exactly like a timeout: the accumulated list is unchanged and the loop
behaves identically to a timeout iteration, never aborting. -/
theorem c10_join_failure_like_timeout (deadline : Nat) (st : LoopState)
    (dt : Nat) (rest : List (Nat × WaitOutcome)) :
    processOutcome st.servers WaitOutcome.joinErr = st.servers ∧
    runLoop deadline st ((dt, WaitOutcome.joinErr) :: rest) =
      runLoop deadline st
        ((dt, WaitOutcome.recvErr RecvTimeoutError.timeout) :: rest) := by
  refine ⟨rfl, ?_⟩
  rfl
